import Mathlib

/-!
Verification development for the Axiom quantitative-investment platform.

The repository ships a web frontend; the algorithmic subsystem it exposes is
the backtesting engine described by its data contracts in
`src/frontend/src/types/backtest.ts` and rendered by
`src/components/backtest/BacktestResults.tsx`.  Pure utility functions
(`parseNumber`, `validateForm`) are embedded directly from their sources;
the execution simulator, portfolio ledger and metrics calculator are not
present in the sources and are modelled from the specification, as noted on
each definition.

Numbers are modelled as rationals (`ℚ`); a JavaScript number that may be NaN
is modelled as `Option ℚ` with `none` standing for NaN.
-/

namespace Backtest

/-- Embedding of the union type at `src/frontend/src/types/backtest.ts` line 34:
`export type BacktestStatus = 'pending' | 'running' | 'completed' | 'failed';`. -/
inductive BacktestStatus where
  | pending
  | running
  | completed
  | failed
deriving DecidableEq

/-- String value of each member of the `BacktestStatus` union type, exactly the
string literals of `src/frontend/src/types/backtest.ts` line 34. -/
def BacktestStatus.toStr : BacktestStatus → String
  | .pending => "pending"
  | .running => "running"
  | .completed => "completed"
  | .failed => "failed"

/-- All members of the `BacktestStatus` union type, in source order. -/
def allBacktestStatuses : List BacktestStatus :=
  [.pending, .running, .completed, .failed]

/-! Embedding of `parseNumber` from the number-formatting utilities
(`src/unnamed/part_006`, lines 43-46):

  const parsed = parseFloat(value.replace(/[^\d.-]/g, ''));
  return isNaN(parsed) ? defaultValue : parsed;
-/

/-- JavaScript numbers: `none` stands for NaN, `some q` for an ordinary number. -/
abbrev JSNumber := Option ℚ

/-- Characters kept by the replace in `parseNumber`: the regex `[^\d.-]` removes
every character other than a decimal digit, a dot and a hyphen-minus. -/
def keepChar (c : Char) : Bool := c.isDigit || c = '.' || c = '-'

/-- The `value.replace(/[^\d.-]/g, '')` step of `parseNumber`. -/
def stripNonNumeric (s : List Char) : List Char := s.filter keepChar

/-- Numeric value of a digit string, most significant digit first. -/
def digitsVal (ds : List Char) : ℕ := ds.foldl (fun a c => 10 * a + (c.toNat - 48)) 0

/-- Model of JavaScript `parseFloat` on an unsigned input over the post-strip
alphabet (digits, dot, hyphen): the longest prefix of the form
digits, digits-dot, digits-dot-digits or dot-digits is parsed; if that prefix
holds no digit at all the parse yields NaN (`none`).  Exponents, an explicit
plus sign, whitespace and the Infinity keyword cannot occur after the strip
performed by `parseNumber`, so they need no modelling here. -/
def parseUnsigned (s : List Char) : Option ℚ :=
  let intPart := s.takeWhile Char.isDigit
  let rest := s.dropWhile Char.isDigit
  if rest.head? = some '.' then
    let fracPart := rest.tail.takeWhile Char.isDigit
    if intPart.isEmpty && fracPart.isEmpty then none
    else some ((digitsVal intPart : ℚ) + (digitsVal fracPart : ℚ) / (10 ^ fracPart.length))
  else if intPart.isEmpty then none else some (digitsVal intPart)

/-- Model of JavaScript `parseFloat` over the post-strip alphabet: an optional
leading minus sign followed by an unsigned decimal literal; NaN is `none`. -/
def jsParseFloat (s : List Char) : Option ℚ :=
  if s.head? = some '-' then (parseUnsigned s.tail).map (fun q => -q)
  else parseUnsigned s

/-- Embedding of `parseNumber` (`src/unnamed/part_006`, lines 43-46): strip every
character other than digits, dot and hyphen, parse with `parseFloat`, and return
the default value exactly when the parse is NaN. -/
def parseNumber (value : String) (defaultValue : JSNumber) : JSNumber :=
  let parsed := jsParseFloat (stripNonNumeric value.data)
  match parsed with
  | none => defaultValue
  | some q => some q

/-! Embedding of the form-validation utility (`src/unnamed/part_007`,
lines 50-75).  A `Record<string, T>` is modelled as an association list with
the record's keys in `Object.keys` order; an absent value is `none`. -/

/-- Embedding of `ValidationRule` (`src/unnamed/part_007`, lines 50-53): a
predicate on the (possibly undefined) field value, and a message. -/
structure ValidationRule (V : Type) where
  validate : Option V → Bool
  message : String

/-- Embedding of `validateForm` (`src/unnamed/part_007`, lines 55-75): for every
field of the rules record, keep the message of each rule whose `validate`
rejects the field's value; a field whose error list is empty is left out of the
returned errors record. -/
def validateForm {V : Type} (values : String → Option V)
    (rules : List (String × List (ValidationRule V))) :
    List (String × List String) :=
  rules.filterMap (fun fr =>
    let fieldErrors :=
      (fr.2.filter (fun r => !(r.validate (values fr.1)))).map ValidationRule.message
    if fieldErrors.isEmpty then none else some (fr.1, fieldErrors))

/-! Modelled from the spec: the execution simulator and portfolio ledger of
sections 3 and 4.2-4.4 are absent from the sources (the repository holds only
their type contracts in `src/frontend/src/types/backtest.ts`), so they are
modelled here from the specification text, single-symbol.  Prices and
quantities are rationals. -/

/-- Modelled from the spec: one OHLCV bar of the Market Data Series
(section 3); the field `open_` stands for the source field `open`, which is a
reserved word here. -/
structure Bar where
  timestamp : ℕ
  open_ : ℚ
  high : ℚ
  low : ℚ
  close : ℚ
  volume : ℚ
deriving DecidableEq

/-- Modelled from the spec: the four trade-intent actions of section 3, matching
the union `'buy' | 'sell' | 'short' | 'cover'` of
`src/frontend/src/types/backtest.ts` line 70. -/
inductive TradeAction where
  | buy
  | sell
  | short
  | cover
deriving DecidableEq

/-- Modelled from the spec: a Signal/Intent of section 3 for the single traded
symbol, with a target size in shares. -/
structure Signal where
  action : TradeAction
  quantity : ℚ
deriving DecidableEq

/-- Modelled from the spec: the two non-fatal warnings of section 7 that the
simulator records against a clipped trade. -/
inductive TradeWarning where
  | insufficientFunds
  | insufficientPosition
deriving DecidableEq

/-- Modelled from the spec: a Fill/Trade log entry of section 3, matching
`BacktestTrade` of `src/frontend/src/types/backtest.ts` lines 67-79;
`realized_pnl` is present exactly on closing fills, and a warning is recorded
against the trade when the simulator clipped it. -/
structure Trade where
  timestamp : ℕ
  action : TradeAction
  price : ℚ
  quantity : ℚ
  commission : ℚ
  realized_pnl : Option ℚ
  warning : Option TradeWarning
deriving DecidableEq

/-- Embedding of `EquityCurvePoint` from `src/frontend/src/types/backtest.ts`
lines 59-62. -/
structure EquityCurvePoint where
  timestamp : ℕ
  portfolio_value : ℚ
deriving DecidableEq

/-- Modelled from the spec: the run configuration of section 4.3 — initial
capital, slippage percentage (default 0) and commission as a flat fee plus a
percentage of notional (default 0). -/
structure SimConfig where
  initial_capital : ℚ
  slippage_pct : ℚ
  commission_flat : ℚ
  commission_pct : ℚ
deriving DecidableEq

/-- Modelled from the spec: the Strategy contract of section 4.2 — a pure
function from the history window to a sequence of signals. -/
abbrev Strategy := List Bar → List Signal

/-- Modelled from the spec: the state owned by the execution simulator during
one run — the portfolio ledger (cash, signed position quantity, average entry
price), the signals awaiting execution at the next bar's open, and the
append-only trade and equity-curve logs. -/
structure SimState where
  cash : ℚ
  posQty : ℚ
  avgEntry : ℚ
  pending : List Signal
  trades : List Trade
  equity_curve : List EquityCurvePoint
deriving DecidableEq

/-- Modelled from the spec: commission of section 4.3 step 3 — a flat fee plus
a percentage of the notional of the fill. -/
def commissionFor (cfg : SimConfig) (p q : ℚ) : ℚ :=
  cfg.commission_flat + cfg.commission_pct * (p * q)

/-- Modelled from the spec: fill price of section 4.3 step 3 — the next bar's
open price with the configured slippage percentage applied adversely (paid on
buys and covers, lost on sells and shorts, per the glossary entry). -/
def fillPrice (cfg : SimConfig) (bar : Bar) (adverseUp : Bool) : ℚ :=
  if adverseUp then bar.open_ * (1 + cfg.slippage_pct)
  else bar.open_ * (1 - cfg.slippage_pct)

/-- Modelled from the spec: the largest quantity whose cost (price plus
commission) fits in the available cash — the clip target of section 4.3
step 5 for buys that would overdraw cash. -/
def maxAffordable (cfg : SimConfig) (cash p : ℚ) : ℚ :=
  let denom := p * (1 + cfg.commission_pct)
  if denom ≤ 0 then 0 else max 0 ((cash - cfg.commission_flat) / denom)

/-- Modelled from the spec: open or increase the long position (section 4.3
step 4): the entry price becomes the weighted average and cash is decremented
by fill price times quantity plus commission; the quantity arrives already
clipped for affordability by the buy case of the signal dispatcher, together
with the warning recorded against the trade. -/
def enterLong (cfg : SimConfig) (ts : ℕ) (p : ℚ) (st : SimState) (q : ℚ)
    (warn : Option TradeWarning) : SimState :=
  let newQty := st.posQty + q
  let newAvg := if newQty = 0 then 0 else (st.posQty * st.avgEntry + q * p) / newQty
  { st with
    cash := st.cash - (q * p + commissionFor cfg p q)
    posQty := newQty
    avgEntry := newAvg
    trades := st.trades ++ [⟨ts, .buy, p, q, commissionFor cfg p q, none, warn⟩] }

/-- Modelled from the spec: open or increase the short position (section 4.3
step 4, sign-adjusted): the entry price becomes the weighted average over
absolute quantities and cash is incremented by fill price times quantity less
commission. -/
def enterShort (cfg : SimConfig) (ts : ℕ) (p : ℚ) (st : SimState) (q : ℚ) : SimState :=
  let newQty := st.posQty - q
  let newAvg := if newQty = 0 then 0 else (st.posQty * st.avgEntry - q * p) / newQty
  { st with
    cash := st.cash + (q * p - commissionFor cfg p q)
    posQty := newQty
    avgEntry := newAvg
    trades := st.trades ++ [⟨ts, .short, p, q, commissionFor cfg p q, none, none⟩] }

/-- Modelled from the spec: close or reduce the long position (section 4.3
step 4): realized profit is (exit price minus average entry price) times the
quantity closed; a sell of more than the open quantity is clipped to the open
quantity and recorded with an insufficient-position warning (step 5); the
average entry price is unchanged on a partial exit and reset on a full close. -/
def reduceLong (cfg : SimConfig) (ts : ℕ) (p : ℚ) (act : TradeAction)
    (st : SimState) (q : ℚ) : SimState :=
  let avail := max st.posQty 0
  let clipped := avail < q
  let q' := if clipped then avail else q
  let warn : Option TradeWarning := if clipped then some .insufficientPosition else none
  let newQty := st.posQty - q'
  { st with
    cash := st.cash + (q' * p - commissionFor cfg p q')
    posQty := newQty
    avgEntry := if newQty = 0 then 0 else st.avgEntry
    trades := st.trades ++
      [⟨ts, act, p, q', commissionFor cfg p q', some ((p - st.avgEntry) * q'), warn⟩] }

/-- Modelled from the spec: close or reduce the short position (section 4.3
step 4, sign-adjusted): realized profit is (average entry price minus exit
price) times the quantity closed; a cover or buy of more than the open short
quantity is clipped to it and recorded with an insufficient-position warning
(step 5); an unclipped fill keeps the warning handed in by the dispatcher
(the insufficient-funds warning of a cash-clipped buy, none otherwise). -/
def reduceShort (cfg : SimConfig) (ts : ℕ) (p : ℚ) (act : TradeAction)
    (st : SimState) (q : ℚ) (baseWarn : Option TradeWarning) : SimState :=
  let avail := max (-st.posQty) 0
  let clipped := avail < q
  let q' := if clipped then avail else q
  let warn : Option TradeWarning := if clipped then some .insufficientPosition else baseWarn
  let newQty := st.posQty + q'
  { st with
    cash := st.cash - (q' * p + commissionFor cfg p q')
    posQty := newQty
    avgEntry := if newQty = 0 then 0 else st.avgEntry
    trades := st.trades ++
      [⟨ts, act, p, q', commissionFor cfg p q', some ((st.avgEntry - p) * q'), warn⟩] }

/-- Modelled from the spec: execute one pending signal against the current
bar's open price (section 4.3 steps 3-5).  A buy whose cost would overdraw
cash is first clipped to the maximum affordable quantity with an
insufficient-funds warning (step 5), and then opens or increases a long, or —
per step 4's closing-or-reducing rule — reduces an open short; a short opens
or increases a short or reduces an open long; sells and covers reduce the
long and short sides, clipped to the open quantity.  Nonsensical negative
target sizes are treated as zero. -/
def applySignal (cfg : SimConfig) (bar : Bar) (st : SimState) (sig : Signal) : SimState :=
  let q := max sig.quantity 0
  match sig.action with
  | .buy =>
    let p := fillPrice cfg bar true
    let afford := q * p + commissionFor cfg p q ≤ st.cash
    let qa := if afford then q else maxAffordable cfg st.cash p
    let wf : Option TradeWarning := if afford then none else some .insufficientFunds
    if st.posQty < 0 then reduceShort cfg bar.timestamp p .buy st qa wf
    else enterLong cfg bar.timestamp p st qa wf
  | .cover => reduceShort cfg bar.timestamp (fillPrice cfg bar true) .cover st q none
  | .sell => reduceLong cfg bar.timestamp (fillPrice cfg bar false) .sell st q
  | .short =>
    if 0 < st.posQty then reduceLong cfg bar.timestamp (fillPrice cfg bar false) .short st q
    else enterShort cfg bar.timestamp (fillPrice cfg bar false) st q

/-- Modelled from the spec: the simulator state before the first bar — the
ledger holds the initial capital, no position, and all logs are empty. -/
def initState (cfg : SimConfig) : SimState :=
  ⟨cfg.initial_capital, 0, 0, [], [], []⟩

/-- Modelled from the spec: one step of the state machine of section 4.3 at bar
index t: the fills pending from the signals of bar t-1 execute at bar t's open;
the strategy is then evaluated on the history window ending at bar t (all bars
up to and including t, never later); finally the equity-curve point for bar t
is appended, valuing the position at bar t's close after all fills for t. -/
def stepBar (strat : Strategy) (cfg : SimConfig) (bars : List Bar)
    (st : SimState) (t : ℕ) : SimState :=
  match bars[t]? with
  | none => st
  | some bar =>
    let st1 := st.pending.foldl (applySignal cfg bar) { st with pending := [] }
    let st2 := { st1 with pending := strat (bars.take (t + 1)) }
    { st2 with
      equity_curve :=
        st2.equity_curve ++ [⟨bar.timestamp, st2.cash + st2.posQty * bar.close⟩] }

/-- Modelled from the spec: the simulation run through bar index k inclusive. -/
def runUpTo (strat : Strategy) (cfg : SimConfig) (bars : List Bar) (k : ℕ) : SimState :=
  (List.range (k + 1)).foldl (stepBar strat cfg bars) (initState cfg)

/-- Modelled from the spec: a full backtest run over the whole bar series
(section 4.3); signals emitted at the final bar have no next open to fill
against and are left pending, and open positions are marked to market in the
final equity point, not force-closed. -/
def runBacktest (strat : Strategy) (cfg : SimConfig) (bars : List Bar) : SimState :=
  (List.range bars.length).foldl (stepBar strat cfg bars) (initState cfg)

/-- Realized profit and loss of every closing trade of a trade log. -/
def closedPnls (trades : List Trade) : List ℚ := trades.filterMap Trade.realized_pnl

/-- Sum of the realized profit and loss over a trade log's closing trades. -/
def realizedSum (trades : List Trade) : ℚ := (closedPnls trades).sum

/-- Close price of the last bar of the series, the final mark-to-market price. -/
def finalPrice (bars : List Bar) : ℚ := ((bars.getLast?).map Bar.close).getD 0

/-! Modelled from the spec: the metrics calculator of section 4.5 is absent
from the sources (only its output contract `BacktestMetrics` exists, in
`src/frontend/src/types/backtest.ts` lines 84-104), so its definitions are
modelled here from the specification's formulas. -/

/-- Arithmetic mean of a list of rationals; 0 on the empty list. -/
def mean (xs : List ℚ) : ℚ := xs.sum / xs.length

/-- Population variance of a list of rationals; 0 on the empty list. -/
def variance (xs : List ℚ) : ℚ :=
  (xs.map (fun x => (x - mean xs) ^ 2)).sum / xs.length

/-- Standard deviation: the square root of the variance. -/
noncomputable def stdev (xs : List ℚ) : ℝ := Real.sqrt (variance xs)

/-- Modelled from the spec: daily returns of section 4.5 — the i-th return is
equity i divided by equity (i-1), minus 1, for i from 1. -/
def dailyReturns (equity : List ℚ) : List ℚ :=
  ((equity.zip equity.tail).map (fun pr => pr.2 / pr.1 - 1))

/-- Modelled from the spec: the Sharpe ratio of section 4.5 — the mean of the
daily returns over their standard deviation, annualized by the square root of
bars per year, and defined as 0 (not NaN) when the standard deviation is 0. -/
noncomputable def sharpe_ratio (equity : List ℚ) (barsPerYear : ℚ) : ℝ :=
  let r := dailyReturns equity
  if variance r = 0 then 0
  else (mean r : ℝ) / stdev r * Real.sqrt (barsPerYear : ℝ)

/-- Running maximum of a list that starts from the bound p. -/
def runningMaxFrom (p : ℚ) : List ℚ → List ℚ
  | [] => []
  | e :: t => max p e :: runningMaxFrom (max p e) t

/-- Modelled from the spec: peak-to-date of section 4.5 — the running maximum
of the equity curve, the i-th entry being the maximum over the first i+1
values. -/
def runningMax : List ℚ → List ℚ
  | [] => []
  | e :: t => runningMaxFrom e (e :: t)

/-- Modelled from the spec: the maximum drawdown of section 4.5 — the maximum
over i of (peak-to-date i minus equity i) over peak-to-date i. -/
def maxDrawdown (equity : List ℚ) : ℚ :=
  (((runningMax equity).zip equity).map (fun pe => (pe.1 - pe.2) / pe.1)).foldl max 0

/-- Modelled from the spec: the profit factor of section 4.5 — the sum of the
positive realized profits over the absolute sum of the negative ones, and
undefined (none, not infinity and not an error) when there is no losing
closing trade. -/
def profit_factor (trades : List Trade) : Option ℚ :=
  let pnls := closedPnls trades
  let losses := pnls.filter (fun p => decide (p < 0))
  if losses.isEmpty then none
  else some ((pnls.filter (fun p => decide (0 < p))).sum / |losses.sum|)

/-- Portfolio values of the recorded equity curve, in bar order. -/
def equityValues (st : SimState) : List ℚ :=
  st.equity_curve.map EquityCurvePoint.portfolio_value

/-! Concrete runs used as witnesses: the round-trip scenario of spec section 8
(initial capital 10000, a buy of 10 shares filled at bar 3's open of 100 with
flat commission 1, a sell of all filled at bar 6's open of 110), and a minimal
buy-and-hold run with zero commission and slippage. -/

/-- A bar whose open, high and low equal o and whose close is c. -/
def mkBar (ts : ℕ) (o c : ℚ) : Bar := ⟨ts, o, o, o, c, 0⟩

/-- Bars of the section 8 round-trip scenario: bar 3 opens at 100 and bar 6
opens at 110. -/
def scenBars : List Bar :=
  [mkBar 0 95 95, mkBar 1 96 96, mkBar 2 97 97, mkBar 3 100 100,
   mkBar 4 104 104, mkBar 5 106 106, mkBar 6 110 110]

/-- Strategy of the section 8 round-trip scenario: a buy signal of 10 shares at
bar 2 and a sell signal of 10 shares at bar 5. -/
def scenStrat : Strategy := fun h =>
  if h.length = 3 then [⟨.buy, 10⟩]
  else if h.length = 6 then [⟨.sell, 10⟩] else []

/-- Configuration of the section 8 round-trip scenario: capital 10000, no
slippage, flat commission 1 per fill. -/
def scenCfg : SimConfig := ⟨10000, 0, 1, 0⟩

/-- Bars of the minimal buy-and-hold run: the fill executes at bar 1's open of
100 and the series closes at 110. -/
def bhBars : List Bar := [mkBar 0 100 100, mkBar 1 100 110]

/-- Buy-and-hold strategy: a single buy signal of 10 shares at bar 0. -/
def bhStrat : Strategy := fun h => if h.length = 1 then [⟨.buy, 10⟩] else []

/-- Zero-commission, zero-slippage configuration with capital 10000. -/
def bhCfg : SimConfig := ⟨10000, 0, 0, 0⟩

/-! Theorems. -/

lemma takeWhile_isDigit_nil (m : List Char) (hm : ∀ c ∈ m, c.isDigit = false) :
    m.takeWhile Char.isDigit = [] := by
  cases m with
  | nil => rfl
  | cons a t => simp [List.takeWhile_cons, hm a (by simp)]

lemma parseUnsigned_no_digits (l : List Char) (h : ∀ c ∈ l, c.isDigit = false) :
    parseUnsigned l = none := by
  have hdrop : l.dropWhile Char.isDigit = l := by
    cases l with
    | nil => rfl
    | cons a t => simp [List.dropWhile_cons, h a (by simp)]
  have htail : l.tail.takeWhile Char.isDigit = [] := by
    apply takeWhile_isDigit_nil
    intro c hc
    exact h c (List.mem_of_mem_tail hc)
  simp [parseUnsigned, hdrop, takeWhile_isDigit_nil l h, htail]

lemma jsParseFloat_no_digits (l : List Char) (h : ∀ c ∈ l, c.isDigit = false) :
    jsParseFloat l = none := by
  have ht : parseUnsigned l.tail = none := by
    apply parseUnsigned_no_digits
    intro c hc
    exact h c (List.mem_of_mem_tail hc)
  by_cases hm : l.head? = some '-'
  · simp [jsParseFloat, hm, ht]
  · simp [jsParseFloat, hm, parseUnsigned_no_digits l h]

/-- C10: parseNumber is total and never NaN for a numeric default value: for
every input string and rational default, the result is an ordinary number; it
equals the parseFloat of the input stripped of every character other than
digits, dot and minus when that parse yields a number, and equals the default
exactly when that parse is NaN — in particular for every string without a
single digit, the empty string included. -/
theorem parseNumber_spec (s : String) (d : ℚ) :
    (parseNumber s (some d)).isSome
    ∧ parseNumber s (some d) =
        (match jsParseFloat (stripNonNumeric s.data) with
          | some q => some q
          | none => some d)
    ∧ stripNonNumeric s.data = s.data.filter keepChar
    ∧ ((∀ c ∈ s.data, c.isDigit = false) → parseNumber s (some d) = some d) := by
  refine ⟨?_, ?_, rfl, ?_⟩
  · unfold parseNumber
    cases hj : jsParseFloat (stripNonNumeric s.data) <;> simp [hj]
  · unfold parseNumber
    cases hj : jsParseFloat (stripNonNumeric s.data) <;> simp [hj]
  · intro h
    have hnone : jsParseFloat (stripNonNumeric s.data) = none := by
      apply jsParseFloat_no_digits
      intro c hc
      exact h c (List.mem_of_mem_filter hc)
    simp [parseNumber, hnone]

/-- Witness for parseNumber_spec: a digit-free string falls back to the
default, and a stripped dollar amount parses to an ordinary number. -/
theorem parseNumber_spec_witness :
    parseNumber "abc" (some 7) = some 7
    ∧ (parseNumber "$-12.5x" (some 0)).isSome :=
  ⟨(parseNumber_spec "abc" 7).2.2.2 (by decide), (parseNumber_spec "$-12.5x" 0).1⟩

/-- C3 counterexample: the claim that the exposed backtest status domain
includes a cancelled member is false — no member of the BacktestStatus union
type of the source has the string value cancelled. -/
theorem backtestStatus_cancelled_absent :
    "cancelled" ∉ allBacktestStatuses.map BacktestStatus.toStr := by
  decide

/-- C3 (amended): the backtest status domain exposed to callers is exactly
pending, running, completed and failed; no cancelled status exists in the
exposed domain, so a cancelled run cannot be represented to callers. -/
theorem backtestStatus_domain :
    (∀ s : BacktestStatus, s ∈ allBacktestStatuses)
    ∧ allBacktestStatuses.map BacktestStatus.toStr =
        ["pending", "running", "completed", "failed"]
    ∧ (∀ s : BacktestStatus, s.toStr ≠ "cancelled") := by
  refine ⟨fun s => ?_, by decide, fun s => ?_⟩ <;> cases s <;> decide

/-- C9: form validation is exhaustive — when every rule of every field accepts,
the errors record is empty (validation succeeds); and for every field and every
one of its rules that rejects the field's value, that rule's message appears in
the field's entry of the errors record, so every violated constraint is listed,
not only the first one encountered. -/
theorem validateForm_every_constraint {V : Type} (values : String → Option V)
    (rules : List (String × List (ValidationRule V))) :
    ((∀ fr ∈ rules, ∀ r ∈ fr.2, r.validate (values fr.1) = true) →
        validateForm values rules = [])
    ∧ (∀ fr ∈ rules, ∀ r ∈ fr.2, r.validate (values fr.1) = false →
        ∃ es, (fr.1, es) ∈ validateForm values rules ∧ r.message ∈ es) := by
  constructor
  · intro h
    unfold validateForm
    rw [List.filterMap_eq_nil_iff]
    intro fr hfr
    have hnil : fr.2.filter (fun r => !(r.validate (values fr.1))) = [] := by
      rw [List.filter_eq_nil_iff]
      intro r hr
      simp [h fr hfr r hr]
    simp [hnil]
  · intro fr hfr r hr hfail
    have hmemf : r ∈ fr.2.filter (fun r => !(r.validate (values fr.1))) :=
      List.mem_filter.mpr ⟨hr, by simp [hfail]⟩
    have hmemm : r.message ∈
        (fr.2.filter (fun r => !(r.validate (values fr.1)))).map ValidationRule.message :=
      List.mem_map_of_mem _ hmemf
    refine ⟨_, ?_, hmemm⟩
    unfold validateForm
    apply List.mem_filterMap.mpr
    refine ⟨fr, hfr, ?_⟩
    have hne : ((fr.2.filter (fun r => !(r.validate (values fr.1)))).map
        ValidationRule.message).isEmpty = false := by
      rw [List.isEmpty_eq_false]
      exact List.ne_nil_of_mem hmemm
    simp [hne]

/-- Witness for validateForm_every_constraint: a field failing two rules at
once gets both messages listed. -/
theorem validateForm_every_constraint_witness :
    ∃ es, ("size", es) ∈ validateForm (fun _ => (none : Option ℚ))
        [("size", [⟨fun v => v.isSome, "required"⟩, ⟨fun _ => false, "too large"⟩])]
      ∧ "too large" ∈ es :=
  (validateForm_every_constraint (fun _ => (none : Option ℚ))
      [("size", [⟨fun v => v.isSome, "required"⟩, ⟨fun _ => false, "too large"⟩])]).2
    ("size", [⟨fun v => v.isSome, "required"⟩, ⟨fun _ => false, "too large"⟩])
    (List.Mem.head _)
    ⟨fun _ => false, "too large"⟩
    (List.Mem.tail _ (List.Mem.head _))
    rfl

/-- C8: determinism — two executions of the backtest on the same strategy,
configuration and market data yield identical equity curves, identical trade
logs and identical metrics; the spec-modelled engine is a pure function of its
inputs, with no hidden source of randomness. -/
theorem runBacktest_deterministic (s₁ s₂ : Strategy) (c₁ c₂ : SimConfig)
    (b₁ b₂ : List Bar) (hs : s₁ = s₂) (hc : c₁ = c₂) (hb : b₁ = b₂) :
    (runBacktest s₁ c₁ b₁).equity_curve = (runBacktest s₂ c₂ b₂).equity_curve
    ∧ (runBacktest s₁ c₁ b₁).trades = (runBacktest s₂ c₂ b₂).trades
    ∧ profit_factor (runBacktest s₁ c₁ b₁).trades =
        profit_factor (runBacktest s₂ c₂ b₂).trades
    ∧ maxDrawdown (equityValues (runBacktest s₁ c₁ b₁)) =
        maxDrawdown (equityValues (runBacktest s₂ c₂ b₂))
    ∧ ∀ b : ℚ, sharpe_ratio (equityValues (runBacktest s₁ c₁ b₁)) b =
        sharpe_ratio (equityValues (runBacktest s₂ c₂ b₂)) b := by
  subst hs; subst hc; subst hb
  exact ⟨rfl, rfl, rfl, rfl, fun _ => rfl⟩

/-- Witness for runBacktest_deterministic: two runs of the section 8 scenario
agree on every output. -/
theorem runBacktest_deterministic_witness :
    (runBacktest scenStrat scenCfg scenBars).equity_curve =
        (runBacktest scenStrat scenCfg scenBars).equity_curve
    ∧ (runBacktest scenStrat scenCfg scenBars).trades =
        (runBacktest scenStrat scenCfg scenBars).trades
    ∧ profit_factor (runBacktest scenStrat scenCfg scenBars).trades =
        profit_factor (runBacktest scenStrat scenCfg scenBars).trades
    ∧ maxDrawdown (equityValues (runBacktest scenStrat scenCfg scenBars)) =
        maxDrawdown (equityValues (runBacktest scenStrat scenCfg scenBars))
    ∧ ∀ b : ℚ, sharpe_ratio (equityValues (runBacktest scenStrat scenCfg scenBars)) b =
        sharpe_ratio (equityValues (runBacktest scenStrat scenCfg scenBars)) b :=
  runBacktest_deterministic scenStrat scenStrat scenCfg scenCfg scenBars scenBars
    rfl rfl rfl

lemma scen_trades :
    (runBacktest scenStrat scenCfg scenBars).trades =
      [⟨3, .buy, 100, 10, 1, none, none⟩, ⟨6, .sell, 110, 10, 1, some 100, none⟩] := by
  have h7 : List.range 7 = [0, 1, 2, 3, 4, 5, 6] := rfl
  norm_num [runBacktest, h7, stepBar, applySignal, enterLong, reduceLong, reduceShort,
    enterShort, initState, commissionFor, fillPrice, maxAffordable, scenStrat, scenCfg,
    scenBars, mkBar]

lemma zip_replicate_self (m : ℕ) (c : ℚ) :
    (List.replicate (m + 1) c).zip (List.replicate m c) = List.replicate m (c, c) := by
  induction m with
  | zero => rfl
  | succ p ih =>
    simp only [List.replicate_succ] at ih ⊢
    simp only [List.zip_cons_cons]
    exact congrArg (List.cons (c, c)) ih

lemma dailyReturns_replicate (n : ℕ) (c : ℚ) :
    dailyReturns (List.replicate n c) = List.replicate (n - 1) (c / c - 1) := by
  cases n with
  | zero => rfl
  | succ m =>
    have htail : (List.replicate (m + 1) c).tail = List.replicate m c := by
      simp [List.replicate_succ]
    simp only [dailyReturns, htail, zip_replicate_self, List.map_replicate]
    simp

lemma variance_replicate (m : ℕ) (k : ℚ) : variance (List.replicate m k) = 0 := by
  cases m with
  | zero => simp [variance, mean]
  | succ p =>
    have hm : mean (List.replicate (p + 1) k) = k := by
      simp only [mean, List.sum_replicate, List.length_replicate, nsmul_eq_mul]
      field_simp
    simp [variance, hm, List.map_replicate, List.sum_replicate]

/-- C5: the Sharpe ratio equals the mean of the daily returns over their
standard deviation times the square root of bars per year whenever the
standard deviation is nonzero, and is exactly 0 — not NaN and not an error —
whenever the daily returns have zero variance; in particular every flat
equity curve yields a Sharpe ratio of 0. -/
theorem sharpe_ratio_spec (equity : List ℚ) (b : ℚ) :
    (variance (dailyReturns equity) = 0 → sharpe_ratio equity b = 0)
    ∧ (variance (dailyReturns equity) ≠ 0 →
        sharpe_ratio equity b =
          (mean (dailyReturns equity) : ℝ) / stdev (dailyReturns equity) *
            Real.sqrt (b : ℝ))
    ∧ ∀ (n : ℕ) (c : ℚ), sharpe_ratio (List.replicate n c) b = 0 := by
  refine ⟨fun h => ?_, fun h => ?_, fun n c => ?_⟩
  · simp [sharpe_ratio, h]
  · simp [sharpe_ratio, h]
  · have hv : variance (dailyReturns (List.replicate n c)) = 0 := by
      rw [dailyReturns_replicate]
      exact variance_replicate _ _
    simp [sharpe_ratio, hv]

/-- Witness for sharpe_ratio_spec: a flat equity curve has zero-variance
returns and a Sharpe ratio of exactly 0. -/
theorem sharpe_ratio_spec_witness : sharpe_ratio [100, 100, 100] 252 = 0 :=
  (sharpe_ratio_spec [100, 100, 100] 252).1
    (by
      rw [show [(100 : ℚ), 100, 100] = List.replicate 3 (100 : ℚ) from rfl,
        dailyReturns_replicate]
      exact variance_replicate _ _)

/-- C6: for a trade log whose closing trades all have nonnegative realized
profit (no losing trades), the profit factor is none — not infinity, not an
error, not a number; and as soon as one closing trade lost, the profit factor
is the sum of the positive realized profits over the absolute sum of the
negative ones. -/
theorem profit_factor_spec (trades : List Trade) :
    ((∀ p ∈ closedPnls trades, 0 ≤ p) → profit_factor trades = none)
    ∧ (∀ p ∈ closedPnls trades, p < 0 →
        profit_factor trades =
          some (((closedPnls trades).filter (fun q => decide (0 < q))).sum /
            |((closedPnls trades).filter (fun q => decide (q < 0))).sum|)) := by
  constructor
  · intro h
    have hnil : (closedPnls trades).filter (fun p => decide (p < 0)) = [] := by
      rw [List.filter_eq_nil_iff]
      intro p hp
      simp [not_lt.mpr (h p hp)]
    simp [profit_factor, hnil]
  · intro p hp hneg
    have hmem : p ∈ (closedPnls trades).filter (fun p => decide (p < 0)) :=
      List.mem_filter.mpr ⟨hp, by simp [hneg]⟩
    have hne : ((closedPnls trades).filter (fun p => decide (p < 0))).isEmpty = false := by
      rw [List.isEmpty_eq_false]
      exact List.ne_nil_of_mem hmem
    simp [profit_factor, hne]

/-- Witness for profit_factor_spec: the section 8 round-trip run has a single
winning closing trade, and its profit factor is none. -/
theorem profit_factor_spec_witness :
    profit_factor (runBacktest scenStrat scenCfg scenBars).trades = none :=
  (profit_factor_spec (runBacktest scenStrat scenCfg scenBars).trades).1
    (by rw [scen_trades]; decide)

lemma runningMaxFrom_zip_le (p : ℚ) (l : List ℚ) :
    ∀ pe ∈ (runningMaxFrom p l).zip l, pe.2 ≤ pe.1 := by
  induction l generalizing p with
  | nil => simp [runningMaxFrom]
  | cons e t ih =>
    intro pe hpe
    simp only [runningMaxFrom, List.zip_cons_cons, List.mem_cons] at hpe
    rcases hpe with h | h
    · rw [h]
      exact le_max_right p e
    · exact ih (max p e) pe h

lemma runningMax_zip_le (l : List ℚ) :
    ∀ pe ∈ (runningMax l).zip l, pe.2 ≤ pe.1 := by
  cases l with
  | nil => simp [runningMax]
  | cons e t => exact runningMaxFrom_zip_le e (e :: t)

lemma le_foldl_max (l : List ℚ) (c : ℚ) : c ≤ l.foldl max c := by
  induction l generalizing c with
  | nil => exact le_refl c
  | cons x t ih => exact le_trans (le_max_left c x) (ih (max c x))

lemma foldl_max_le_one (l : List ℚ) (c : ℚ) (hc : c ≤ 1) (h : ∀ x ∈ l, x ≤ 1) :
    l.foldl max c ≤ 1 := by
  induction l generalizing c with
  | nil => exact hc
  | cons x t ih =>
    exact ih (max c x) (max_le hc (h x (by simp))) (fun y hy => h y (by simp [hy]))

/-- C7: the maximum drawdown — the largest value of (peak-to-date minus
equity) over peak-to-date, with peak-to-date the running maximum — lies
between 0 and 1 for every equity curve that never goes negative. -/
theorem maxDrawdown_bounds (equity : List ℚ) (h : ∀ e ∈ equity, 0 ≤ e) :
    0 ≤ maxDrawdown equity ∧ maxDrawdown equity ≤ 1 := by
  constructor
  · exact le_foldl_max _ 0
  · apply foldl_max_le_one _ 0 (by norm_num)
    intro x hx
    rcases List.mem_map.mp hx with ⟨pe, hpe, rfl⟩
    have hle : pe.2 ≤ pe.1 := runningMax_zip_le equity pe hpe
    have hnn : 0 ≤ pe.2 := h pe.2 (List.of_mem_zip hpe).2
    by_cases hp : pe.1 = 0
    · simp [hp]
    · have hppos : 0 < pe.1 := lt_of_le_of_ne (le_trans hnn hle) (Ne.symm hp)
      rw [div_le_one hppos]
      linarith

/-- Witness for maxDrawdown_bounds: a nonnegative curve with a 25 percent
drawdown stays within the unit interval. -/
theorem maxDrawdown_bounds_witness :
    0 ≤ maxDrawdown [100, 120, 90, 110] ∧ maxDrawdown [100, 120, 90, 110] ≤ 1 :=
  maxDrawdown_bounds [100, 120, 90, 110] (by decide)

lemma stepBar_prefix (strat : Strategy) (cfg : SimConfig) {b₁ b₂ : List Bar} (t : ℕ)
    (h : b₁.take (t + 1) = b₂.take (t + 1)) (st : SimState) :
    stepBar strat cfg b₁ st t = stepBar strat cfg b₂ st t := by
  have hget : b₁[t]? = b₂[t]? := by
    have h1 : (b₁.take (t + 1))[t]? = b₁[t]? := by
      rw [List.getElem?_take]
      simp
    have h2 : (b₂.take (t + 1))[t]? = b₂[t]? := by
      rw [List.getElem?_take]
      simp
    rw [← h1, ← h2, h]
  unfold stepBar
  rw [hget, h]

lemma runUpTo_zero (strat : Strategy) (cfg : SimConfig) (bars : List Bar) :
    runUpTo strat cfg bars 0 = stepBar strat cfg bars (initState cfg) 0 := rfl

lemma runUpTo_succ (strat : Strategy) (cfg : SimConfig) (bars : List Bar) (k : ℕ) :
    runUpTo strat cfg bars (k + 1) =
      stepBar strat cfg bars (runUpTo strat cfg bars k) (k + 1) := by
  unfold runUpTo
  rw [List.range_succ, List.foldl_append]
  rfl

lemma runUpTo_prefix (strat : Strategy) (cfg : SimConfig) {b₁ b₂ : List Bar} :
    ∀ k, b₁.take (k + 1) = b₂.take (k + 1) →
      runUpTo strat cfg b₁ k = runUpTo strat cfg b₂ k := by
  intro k
  induction k with
  | zero =>
    intro h
    rw [runUpTo_zero, runUpTo_zero, stepBar_prefix strat cfg 0 h]
  | succ p ih =>
    intro h
    have hp : b₁.take (p + 1) = b₂.take (p + 1) := by
      have := congrArg (List.take (p + 1)) h
      simpa [List.take_take, Nat.min_def] using this
    rw [runUpTo_succ, runUpTo_succ, ih hp, stepBar_prefix strat cfg (p + 1) h]

lemma runUpTo_pending (strat : Strategy) (cfg : SimConfig) (bars : List Bar) :
    ∀ t, t < bars.length →
      (runUpTo strat cfg bars t).pending = strat (bars.take (t + 1)) := by
  intro t ht
  obtain ⟨bar, hbar⟩ : ∃ bar, bars[t]? = some bar :=
    ⟨_, List.getElem?_eq_getElem ht⟩
  cases t with
  | zero =>
    rw [runUpTo_zero]
    simp [stepBar, hbar]
  | succ p =>
    rw [runUpTo_succ]
    simp [stepBar, hbar]

lemma applySignal_trades (cfg : SimConfig) (bar : Bar) (st : SimState) (sig : Signal) :
    ∃ tr : Trade,
      (applySignal cfg bar st sig).trades = st.trades ++ [tr]
      ∧ tr.timestamp = bar.timestamp
      ∧ (tr.price = fillPrice cfg bar true ∨ tr.price = fillPrice cfg bar false) := by
  obtain ⟨act, q0⟩ := sig
  cases act <;>
    dsimp [applySignal, enterLong, enterShort, reduceLong, reduceShort] <;>
    split_ifs <;>
    first
      | exact ⟨_, rfl, rfl, Or.inl rfl⟩
      | exact ⟨_, rfl, rfl, Or.inr rfl⟩

lemma applySignal_equity (cfg : SimConfig) (bar : Bar) (st : SimState) (sig : Signal) :
    (applySignal cfg bar st sig).equity_curve = st.equity_curve := by
  obtain ⟨act, q0⟩ := sig
  cases act <;>
    dsimp [applySignal, enterLong, enterShort, reduceLong, reduceShort] <;>
    split_ifs <;> rfl

lemma applySignal_pending (cfg : SimConfig) (bar : Bar) (st : SimState) (sig : Signal) :
    (applySignal cfg bar st sig).pending = st.pending := by
  obtain ⟨act, q0⟩ := sig
  cases act <;>
    dsimp [applySignal, enterLong, enterShort, reduceLong, reduceShort] <;>
    split_ifs <;> rfl

lemma foldl_applySignal_equity (cfg : SimConfig) (bar : Bar) :
    ∀ (sigs : List Signal) (st : SimState),
      (sigs.foldl (applySignal cfg bar) st).equity_curve = st.equity_curve := by
  intro sigs
  induction sigs with
  | nil => intro st; rfl
  | cons s rest ih =>
    intro st
    rw [List.foldl_cons, ih, applySignal_equity]

lemma foldl_applySignal_trades (cfg : SimConfig) (bar : Bar) :
    ∀ (sigs : List Signal) (st : SimState),
      ∃ new : List Trade,
        (sigs.foldl (applySignal cfg bar) st).trades = st.trades ++ new
        ∧ ∀ tr ∈ new, tr.timestamp = bar.timestamp
            ∧ (tr.price = fillPrice cfg bar true ∨ tr.price = fillPrice cfg bar false) := by
  intro sigs
  induction sigs with
  | nil => intro st; exact ⟨[], by simp, by simp⟩
  | cons s rest ih =>
    intro st
    obtain ⟨tr, htr, hts, hpr⟩ := applySignal_trades cfg bar st s
    obtain ⟨new, hnew, hprops⟩ := ih (applySignal cfg bar st s)
    refine ⟨tr :: new, ?_, ?_⟩
    · rw [List.foldl_cons, hnew, htr]
      simp
    · intro t ht
      rcases List.mem_cons.mp ht with h | h
      · rw [h]
        exact ⟨hts, hpr⟩
      · exact hprops t h

lemma runUpTo_trades_step (strat : Strategy) (cfg : SimConfig) (bars : List Bar)
    (t : ℕ) (ht : t + 1 < bars.length) :
    ∃ new : List Trade,
      (runUpTo strat cfg bars (t + 1)).trades = (runUpTo strat cfg bars t).trades ++ new
      ∧ ∀ tr ∈ new, tr.timestamp = (bars.get ⟨t + 1, ht⟩).timestamp
          ∧ (tr.price = fillPrice cfg (bars.get ⟨t + 1, ht⟩) true
             ∨ tr.price = fillPrice cfg (bars.get ⟨t + 1, ht⟩) false) := by
  rw [runUpTo_succ]
  have hbar : bars[t + 1]? = some (bars.get ⟨t + 1, ht⟩) := List.getElem?_eq_getElem ht
  obtain ⟨new, hnew, hprops⟩ :=
    foldl_applySignal_trades cfg (bars.get ⟨t + 1, ht⟩)
      (runUpTo strat cfg bars t).pending
      { runUpTo strat cfg bars t with pending := [] }
  refine ⟨new, ?_, hprops⟩
  simp only [stepBar, hbar]
  exact hnew

/-- C1: no look-ahead — (1) the run through bar k is fully determined by the
first k+1 bars, so bars after k can never influence it; (2) at each step t the
strategy's evaluate receives exactly the history window of bars 0..t, never a
later bar; (3) every fill recorded while stepping to bar t+1 carries bar t+1's
timestamp and executes at bar t+1's open price (adjusted only by slippage);
and (4) under strictly increasing timestamps, every bar the strategy could
observe when emitting those signals is strictly earlier than the bar its fill
executes against. -/
theorem no_lookahead (strat : Strategy) (cfg : SimConfig) :
    (∀ (b₁ b₂ : List Bar) (k : ℕ), b₁.take (k + 1) = b₂.take (k + 1) →
        runUpTo strat cfg b₁ k = runUpTo strat cfg b₂ k)
    ∧ (∀ (bars : List Bar) (t : ℕ), t < bars.length →
        (runUpTo strat cfg bars t).pending = strat (bars.take (t + 1)))
    ∧ (∀ (bars : List Bar) (t : ℕ) (ht : t + 1 < bars.length),
        ∃ new : List Trade,
          (runUpTo strat cfg bars (t + 1)).trades =
              (runUpTo strat cfg bars t).trades ++ new
          ∧ ∀ tr ∈ new, tr.timestamp = (bars.get ⟨t + 1, ht⟩).timestamp
              ∧ (tr.price = fillPrice cfg (bars.get ⟨t + 1, ht⟩) true
                 ∨ tr.price = fillPrice cfg (bars.get ⟨t + 1, ht⟩) false))
    ∧ (∀ (bars : List Bar) (t : ℕ) (ht : t + 1 < bars.length),
        (∀ (i j : ℕ) (hi : i < j) (hj : j < bars.length),
            (bars.get ⟨i, lt_trans hi hj⟩).timestamp < (bars.get ⟨j, hj⟩).timestamp) →
        ∀ b ∈ bars.take (t + 1), b.timestamp < (bars.get ⟨t + 1, ht⟩).timestamp) := by
  refine ⟨fun b₁ b₂ k h => runUpTo_prefix strat cfg k h,
    runUpTo_pending strat cfg,
    runUpTo_trades_step strat cfg, ?_⟩
  intro bars t ht hmono b hb
  rw [List.mem_iff_getElem] at hb
  obtain ⟨i, hi, he⟩ := hb
  have hilen : i < bars.length := lt_of_lt_of_le hi (by simp)
  have hit : i < t + 1 := lt_of_lt_of_le hi (by simp)
  have hgb : b = bars.get ⟨i, hilen⟩ := by
    rw [← he]
    simp [List.getElem_take]
  rw [hgb]
  exact hmono i (t + 1) hit ht

/-- Witness for no_lookahead: at bar 0 the run is identical under two series
that differ from bar 1 onward, and at bar 2 of the section 8 scenario the
strategy sees exactly the first three bars. -/
theorem no_lookahead_witness :
    runUpTo bhStrat bhCfg [mkBar 0 100 100, mkBar 1 100 110] 0
      = runUpTo bhStrat bhCfg [mkBar 0 100 100, mkBar 1 200 50] 0
    ∧ (runUpTo scenStrat scenCfg scenBars 2).pending = scenStrat (scenBars.take 3) :=
  ⟨(no_lookahead bhStrat bhCfg).1 _ _ 0 rfl,
   (no_lookahead scenStrat scenCfg).2.1 scenBars 2 (by decide)⟩

lemma realizedSum_append_one (l : List Trade) (tr : Trade) :
    realizedSum (l ++ [tr]) = realizedSum l + tr.realized_pnl.getD 0 := by
  simp only [realizedSum, closedPnls, List.filterMap_append, List.sum_append]
  cases h : tr.realized_pnl <;> simp [h]

lemma maxAffordable_nonneg (cfg : SimConfig) (cash p : ℚ) :
    0 ≤ maxAffordable cfg cash p := by
  unfold maxAffordable
  dsimp only
  split_ifs
  · exact le_refl 0
  · exact le_max_left 0 _

lemma enterLong_inv (cfg : SimConfig) (ts : ℕ) (p : ℚ) (st : SimState) (q : ℚ)
    (warn : Option TradeWarning)
    (hflat : cfg.commission_flat = 0) (hpct : cfg.commission_pct = 0)
    (hq : 0 ≤ q) (hpos : 0 ≤ st.posQty) :
    (enterLong cfg ts p st q warn).cash
      + (enterLong cfg ts p st q warn).posQty * (enterLong cfg ts p st q warn).avgEntry
      - realizedSum (enterLong cfg ts p st q warn).trades
    = st.cash + st.posQty * st.avgEntry - realizedSum st.trades := by
  have hcomm : ∀ pp qq : ℚ, commissionFor cfg pp qq = 0 := fun pp qq => by
    simp [commissionFor, hflat, hpct]
  dsimp only [enterLong]
  rw [realizedSum_append_one]
  simp only [hcomm, add_zero, Option.getD_none]
  split_ifs with h1
  · have hq0 : q = 0 := by linarith
    have hp0 : st.posQty = 0 := by linarith
    rw [hq0, hp0]
    ring
  · field_simp

lemma enterShort_inv (cfg : SimConfig) (ts : ℕ) (p : ℚ) (st : SimState) (q : ℚ)
    (hflat : cfg.commission_flat = 0) (hpct : cfg.commission_pct = 0)
    (hq : 0 ≤ q) (hpos : st.posQty ≤ 0) :
    (enterShort cfg ts p st q).cash
      + (enterShort cfg ts p st q).posQty * (enterShort cfg ts p st q).avgEntry
      - realizedSum (enterShort cfg ts p st q).trades
    = st.cash + st.posQty * st.avgEntry - realizedSum st.trades := by
  have hcomm : ∀ pp qq : ℚ, commissionFor cfg pp qq = 0 := fun pp qq => by
    simp [commissionFor, hflat, hpct]
  dsimp only [enterShort]
  rw [realizedSum_append_one]
  simp only [hcomm, add_zero, Option.getD_none]
  split_ifs with h1
  · have hq0 : q = 0 := by linarith
    have hp0 : st.posQty = 0 := by linarith
    rw [hq0, hp0]
    ring
  · field_simp

lemma reduceLong_inv (cfg : SimConfig) (ts : ℕ) (p : ℚ) (act : TradeAction)
    (st : SimState) (q : ℚ)
    (hflat : cfg.commission_flat = 0) (hpct : cfg.commission_pct = 0) :
    (reduceLong cfg ts p act st q).cash
      + (reduceLong cfg ts p act st q).posQty * (reduceLong cfg ts p act st q).avgEntry
      - realizedSum (reduceLong cfg ts p act st q).trades
    = st.cash + st.posQty * st.avgEntry - realizedSum st.trades := by
  have hcomm : ∀ pp qq : ℚ, commissionFor cfg pp qq = 0 := fun pp qq => by
    simp [commissionFor, hflat, hpct]
  dsimp only [reduceLong]
  rw [realizedSum_append_one]
  simp only [hcomm, add_zero, Option.getD_some]
  split_ifs with h1 h2 h2
  · have hqp : max st.posQty 0 = st.posQty := by linarith
    rw [hqp]
    ring
  · ring
  · have hqp : q = st.posQty := by linarith
    rw [hqp]
    ring
  · ring

lemma reduceShort_inv (cfg : SimConfig) (ts : ℕ) (p : ℚ) (act : TradeAction)
    (st : SimState) (q : ℚ) (baseWarn : Option TradeWarning)
    (hflat : cfg.commission_flat = 0) (hpct : cfg.commission_pct = 0) :
    (reduceShort cfg ts p act st q baseWarn).cash
      + (reduceShort cfg ts p act st q baseWarn).posQty *
          (reduceShort cfg ts p act st q baseWarn).avgEntry
      - realizedSum (reduceShort cfg ts p act st q baseWarn).trades
    = st.cash + st.posQty * st.avgEntry - realizedSum st.trades := by
  have hcomm : ∀ pp qq : ℚ, commissionFor cfg pp qq = 0 := fun pp qq => by
    simp [commissionFor, hflat, hpct]
  dsimp only [reduceShort]
  rw [realizedSum_append_one]
  simp only [hcomm, add_zero, Option.getD_some]
  split_ifs with h1 h2 h2
  · have hqp : max (-st.posQty) 0 = -st.posQty := by linarith
    rw [hqp]
    ring
  · ring
  · have hqp : q = -st.posQty := by linarith
    rw [hqp]
    ring
  · ring

lemma applySignal_inv (cfg : SimConfig) (bar : Bar) (st : SimState) (sig : Signal)
    (hflat : cfg.commission_flat = 0) (hpct : cfg.commission_pct = 0) :
    (applySignal cfg bar st sig).cash
      + (applySignal cfg bar st sig).posQty * (applySignal cfg bar st sig).avgEntry
      - realizedSum (applySignal cfg bar st sig).trades
    = st.cash + st.posQty * st.avgEntry - realizedSum st.trades := by
  obtain ⟨act, q0⟩ := sig
  have hq : (0 : ℚ) ≤ max q0 0 := le_max_right _ _
  cases act <;> dsimp only [applySignal]
  · by_cases hpos : st.posQty < 0
    · rw [if_pos hpos]
      by_cases haff : max q0 0 * fillPrice cfg bar true
          + commissionFor cfg (fillPrice cfg bar true) (max q0 0) ≤ st.cash
      · rw [if_pos haff, if_pos haff]
        exact reduceShort_inv cfg bar.timestamp (fillPrice cfg bar true) .buy st
          (max q0 0) none hflat hpct
      · rw [if_neg haff, if_neg haff]
        exact reduceShort_inv cfg bar.timestamp (fillPrice cfg bar true) .buy st
          (maxAffordable cfg st.cash (fillPrice cfg bar true))
          (some .insufficientFunds) hflat hpct
    · rw [if_neg hpos]
      by_cases haff : max q0 0 * fillPrice cfg bar true
          + commissionFor cfg (fillPrice cfg bar true) (max q0 0) ≤ st.cash
      · rw [if_pos haff, if_pos haff]
        exact enterLong_inv cfg bar.timestamp (fillPrice cfg bar true) st
          (max q0 0) none hflat hpct hq (not_lt.mp hpos)
      · rw [if_neg haff, if_neg haff]
        exact enterLong_inv cfg bar.timestamp (fillPrice cfg bar true) st
          (maxAffordable cfg st.cash (fillPrice cfg bar true))
          (some .insufficientFunds) hflat hpct
          (maxAffordable_nonneg cfg st.cash (fillPrice cfg bar true)) (not_lt.mp hpos)
  · exact reduceLong_inv cfg bar.timestamp (fillPrice cfg bar false) .sell st
      (max q0 0) hflat hpct
  · split_ifs with hpos
    · exact reduceLong_inv cfg bar.timestamp (fillPrice cfg bar false) .short st
        (max q0 0) hflat hpct
    · exact enterShort_inv cfg bar.timestamp (fillPrice cfg bar false) st
        (max q0 0) hflat hpct hq (le_of_not_lt hpos)
  · exact reduceShort_inv cfg bar.timestamp (fillPrice cfg bar true) .cover st
      (max q0 0) none hflat hpct

lemma foldl_applySignal_inv (cfg : SimConfig) (bar : Bar)
    (hflat : cfg.commission_flat = 0) (hpct : cfg.commission_pct = 0) :
    ∀ (sigs : List Signal) (st : SimState),
      (sigs.foldl (applySignal cfg bar) st).cash
        + (sigs.foldl (applySignal cfg bar) st).posQty *
            (sigs.foldl (applySignal cfg bar) st).avgEntry
        - realizedSum (sigs.foldl (applySignal cfg bar) st).trades
      = st.cash + st.posQty * st.avgEntry - realizedSum st.trades := by
  intro sigs
  induction sigs with
  | nil => intro st; rfl
  | cons s rest ih =>
    intro st
    rw [List.foldl_cons, ih (applySignal cfg bar st s),
      applySignal_inv cfg bar st s hflat hpct]

lemma stepBar_inv (strat : Strategy) (cfg : SimConfig) (bars : List Bar)
    (hflat : cfg.commission_flat = 0) (hpct : cfg.commission_pct = 0)
    (st : SimState) (t : ℕ) :
    (stepBar strat cfg bars st t).cash
      + (stepBar strat cfg bars st t).posQty * (stepBar strat cfg bars st t).avgEntry
      - realizedSum (stepBar strat cfg bars st t).trades
    = st.cash + st.posQty * st.avgEntry - realizedSum st.trades := by
  cases hbar : bars[t]? with
  | none => simp [stepBar, hbar]
  | some bar =>
    simp only [stepBar, hbar]
    exact foldl_applySignal_inv cfg bar hflat hpct st.pending { st with pending := [] }

lemma foldl_stepBar_inv (strat : Strategy) (cfg : SimConfig) (bars : List Bar)
    (hflat : cfg.commission_flat = 0) (hpct : cfg.commission_pct = 0) :
    ∀ (idxs : List ℕ) (st : SimState),
      ((idxs.foldl (stepBar strat cfg bars) st)).cash
        + ((idxs.foldl (stepBar strat cfg bars) st)).posQty *
            ((idxs.foldl (stepBar strat cfg bars) st)).avgEntry
        - realizedSum ((idxs.foldl (stepBar strat cfg bars) st)).trades
      = st.cash + st.posQty * st.avgEntry - realizedSum st.trades := by
  intro idxs
  induction idxs with
  | nil => intro st; rfl
  | cons i rest ih =>
    intro st
    rw [List.foldl_cons, ih (stepBar strat cfg bars st i),
      stepBar_inv strat cfg bars hflat hpct st i]

/-- C2 counterexample: the claimed conservation identity with open positions
valued at the final market price fails on a zero-commission, zero-slippage
buy-and-hold run whose final price moved away from the entry price: cash 9000
plus 10 shares at the final price 110 is 10100, but initial capital plus
realized profit is 10000. -/
theorem cash_conservation_final_price_counterexample :
    ¬ ((runBacktest bhStrat bhCfg bhBars).cash
        + (runBacktest bhStrat bhCfg bhBars).posQty * finalPrice bhBars
      = bhCfg.initial_capital + realizedSum (runBacktest bhStrat bhCfg bhBars).trades) := by
  have h2 : List.range 2 = [0, 1] := rfl
  norm_num [runBacktest, h2, stepBar, applySignal, enterLong, reduceShort, initState,
    commissionFor, fillPrice, maxAffordable, bhStrat, bhCfg, bhBars, mkBar, finalPrice,
    realizedSum, closedPnls]

/-- C2 (amended): cash conservation — for every run with zero commission and
zero slippage, final cash plus the open position valued at its average entry
price equals the initial capital plus the sum of realized profit over all
closing trades (equivalently, the claimed identity holds once the unrealized
mark-to-market gain of still-open positions is accounted for); each fill moves
cash by exactly fill price times quantity plus commission (buys and covers
down, sells and shorts up net of commission). -/
theorem cash_conservation (strat : Strategy) (cfg : SimConfig) (bars : List Bar)
    (hflat : cfg.commission_flat = 0) (hpct : cfg.commission_pct = 0)
    (hslip : cfg.slippage_pct = 0) :
    (runBacktest strat cfg bars).cash
      + (runBacktest strat cfg bars).posQty * (runBacktest strat cfg bars).avgEntry
    = cfg.initial_capital + realizedSum (runBacktest strat cfg bars).trades := by
  have h0 : realizedSum ([] : List Trade) = 0 := rfl
  have h2 : (runBacktest strat cfg bars).cash
      + (runBacktest strat cfg bars).posQty * (runBacktest strat cfg bars).avgEntry
      - realizedSum (runBacktest strat cfg bars).trades
      = cfg.initial_capital + 0 * 0 - realizedSum ([] : List Trade) :=
    foldl_stepBar_inv strat cfg bars hflat hpct (List.range bars.length) (initState cfg)
  rw [h0] at h2
  linarith [h2]

/-- Witness for cash_conservation: on the zero-commission buy-and-hold run,
final cash 9000 plus 10 shares at entry price 100 equals the initial 10000
plus zero realized profit. -/
theorem cash_conservation_witness :
    (runBacktest bhStrat bhCfg bhBars).cash
      + (runBacktest bhStrat bhCfg bhBars).posQty *
          (runBacktest bhStrat bhCfg bhBars).avgEntry
    = bhCfg.initial_capital + realizedSum (runBacktest bhStrat bhCfg bhBars).trades :=
  cash_conservation bhStrat bhCfg bhBars rfl rfl rfl

lemma runRange_equity_len (strat : Strategy) (cfg : SimConfig) (bars : List Bar) :
    ∀ n, n ≤ bars.length →
      (((List.range n).foldl (stepBar strat cfg bars) (initState cfg))).equity_curve.length
        = n := by
  intro n
  induction n with
  | zero => intro _; rfl
  | succ m ih =>
    intro h
    have hm : m < bars.length := h
    obtain ⟨bar, hbar⟩ : ∃ b, bars[m]? = some b := ⟨_, List.getElem?_eq_getElem hm⟩
    rw [List.range_succ, List.foldl_append, List.foldl_cons, List.foldl_nil]
    simp only [stepBar, hbar]
    rw [List.length_append, foldl_applySignal_equity]
    simp [ih (le_of_lt hm)]


/-- C4: clip, never reject — (1) a buy against a long or flat position whose
cost would overdraw cash is not dropped and does not fail the run: the
simulator records a trade clipped to the maximum affordable quantity, strictly
smaller than the requested one, whose cost fits in the available cash,
carrying an insufficient-funds warning; (2) the same holds for a buy against
an open short (the fill that reduces the short is clipped to the affordable
quantity and recorded with the insufficient-funds warning); (3) a cover of
more than the open short quantity is clipped to the open short quantity and
recorded with an insufficient-position warning; (4) a sell of more than the
open long quantity is clipped to the open quantity and recorded with an
insufficient-position warning; and (5) a run always records exactly one
equity point per bar — warnings never truncate it. -/
theorem clip_not_reject :
    (∀ (cfg : SimConfig) (bar : Bar) (st : SimState) (q : ℚ),
        0 ≤ st.posQty → 0 ≤ q →
        st.cash < q * fillPrice cfg bar true
          + commissionFor cfg (fillPrice cfg bar true) q →
        0 < fillPrice cfg bar true → 0 ≤ cfg.commission_pct →
        cfg.commission_flat ≤ st.cash →
        (applySignal cfg bar st ⟨.buy, q⟩).trades = st.trades ++
            [⟨bar.timestamp, .buy, fillPrice cfg bar true,
              maxAffordable cfg st.cash (fillPrice cfg bar true),
              commissionFor cfg (fillPrice cfg bar true)
                (maxAffordable cfg st.cash (fillPrice cfg bar true)),
              none, some .insufficientFunds⟩]
          ∧ maxAffordable cfg st.cash (fillPrice cfg bar true) < q
          ∧ maxAffordable cfg st.cash (fillPrice cfg bar true) * fillPrice cfg bar true
              + commissionFor cfg (fillPrice cfg bar true)
                  (maxAffordable cfg st.cash (fillPrice cfg bar true))
            ≤ st.cash)
    ∧ (∀ (cfg : SimConfig) (bar : Bar) (st : SimState) (q : ℚ),
        st.posQty < 0 → 0 ≤ q →
        st.cash < q * fillPrice cfg bar true
          + commissionFor cfg (fillPrice cfg bar true) q →
        maxAffordable cfg st.cash (fillPrice cfg bar true) ≤ max (-st.posQty) 0 →
        (applySignal cfg bar st ⟨.buy, q⟩).trades = st.trades ++
            [⟨bar.timestamp, .buy, fillPrice cfg bar true,
              maxAffordable cfg st.cash (fillPrice cfg bar true),
              commissionFor cfg (fillPrice cfg bar true)
                (maxAffordable cfg st.cash (fillPrice cfg bar true)),
              some ((st.avgEntry - fillPrice cfg bar true) *
                maxAffordable cfg st.cash (fillPrice cfg bar true)),
              some .insufficientFunds⟩])
    ∧ (∀ (cfg : SimConfig) (bar : Bar) (st : SimState) (q : ℚ),
        0 ≤ q → max (-st.posQty) 0 < q →
        (applySignal cfg bar st ⟨.cover, q⟩).trades = st.trades ++
            [⟨bar.timestamp, .cover, fillPrice cfg bar true, max (-st.posQty) 0,
              commissionFor cfg (fillPrice cfg bar true) (max (-st.posQty) 0),
              some ((st.avgEntry - fillPrice cfg bar true) * max (-st.posQty) 0),
              some .insufficientPosition⟩])
    ∧ (∀ (cfg : SimConfig) (bar : Bar) (st : SimState) (q : ℚ),
        0 ≤ q → max st.posQty 0 < q →
        (applySignal cfg bar st ⟨.sell, q⟩).trades = st.trades ++
            [⟨bar.timestamp, .sell, fillPrice cfg bar false, max st.posQty 0,
              commissionFor cfg (fillPrice cfg bar false) (max st.posQty 0),
              some ((fillPrice cfg bar false - st.avgEntry) * max st.posQty 0),
              some .insufficientPosition⟩])
    ∧ (∀ (strat : Strategy) (cfg : SimConfig) (bars : List Bar),
        (runBacktest strat cfg bars).equity_curve.length = bars.length) := by
  refine ⟨?_, ?_, ?_, ?_, ?_⟩
  · intro cfg bar st q hpos hq hover hp hpct hflat
    have hqmax : max q 0 = q := max_eq_left hq
    have hnoaff : ¬ (q * fillPrice cfg bar true
        + commissionFor cfg (fillPrice cfg bar true) q ≤ st.cash) := not_le.mpr hover
    have hdenom : 0 < fillPrice cfg bar true * (1 + cfg.commission_pct) := by
      apply mul_pos hp
      linarith
    have hma : maxAffordable cfg st.cash (fillPrice cfg bar true)
        = (st.cash - cfg.commission_flat)
            / (fillPrice cfg bar true * (1 + cfg.commission_pct)) := by
      unfold maxAffordable
      rw [if_neg (not_le.mpr hdenom)]
      exact max_eq_right (div_nonneg (by linarith) (le_of_lt hdenom))
    refine ⟨?_, ?_, ?_⟩
    · dsimp only [applySignal]
      rw [hqmax, if_neg (not_lt.mpr hpos), if_neg hnoaff, if_neg hnoaff]
      rfl
    · rw [hma, div_lt_iff₀ hdenom]
      have hexp : q * (fillPrice cfg bar true * (1 + cfg.commission_pct))
          = q * fillPrice cfg bar true
            + cfg.commission_pct * (fillPrice cfg bar true * q) := by ring
      rw [hexp]
      have : commissionFor cfg (fillPrice cfg bar true) q
          = cfg.commission_flat + cfg.commission_pct * (fillPrice cfg bar true * q) :=
        rfl
      linarith [hover]
    · rw [hma]
      have hcm : commissionFor cfg (fillPrice cfg bar true)
          ((st.cash - cfg.commission_flat)
            / (fillPrice cfg bar true * (1 + cfg.commission_pct)))
          = cfg.commission_flat + cfg.commission_pct * (fillPrice cfg bar true *
              ((st.cash - cfg.commission_flat)
                / (fillPrice cfg bar true * (1 + cfg.commission_pct)))) := rfl
      rw [hcm]
      have key : (st.cash - cfg.commission_flat)
            / (fillPrice cfg bar true * (1 + cfg.commission_pct))
            * (fillPrice cfg bar true * (1 + cfg.commission_pct))
          = st.cash - cfg.commission_flat :=
        div_mul_cancel₀ _ (ne_of_gt hdenom)
      have heq : (st.cash - cfg.commission_flat)
            / (fillPrice cfg bar true * (1 + cfg.commission_pct)) * fillPrice cfg bar true
          + (cfg.commission_flat + cfg.commission_pct * (fillPrice cfg bar true *
              ((st.cash - cfg.commission_flat)
                / (fillPrice cfg bar true * (1 + cfg.commission_pct)))))
          = st.cash := by linear_combination key
      exact le_of_eq heq
  · intro cfg bar st q hshort hq hover hfit
    have hqmax : max q 0 = q := max_eq_left hq
    have hnoaff : ¬ (q * fillPrice cfg bar true
        + commissionFor cfg (fillPrice cfg bar true) q ≤ st.cash) := not_le.mpr hover
    dsimp only [applySignal]
    rw [hqmax, if_pos hshort, if_neg hnoaff, if_neg hnoaff]
    dsimp only [reduceShort]
    rw [if_neg (not_lt.mpr hfit), if_neg (not_lt.mpr hfit)]
  · intro cfg bar st q hq hclip
    have hqmax : max q 0 = q := max_eq_left hq
    dsimp only [applySignal, reduceShort]
    rw [hqmax, if_pos hclip, if_pos hclip]
  · intro cfg bar st q hq hclip
    have hqmax : max q 0 = q := max_eq_left hq
    dsimp only [applySignal, reduceLong]
    rw [hqmax, if_pos hclip, if_pos hclip]
  · intro strat cfg bars
    exact runRange_equity_len strat cfg bars bars.length (le_refl _)

/-- Witness for clip_not_reject: with 50000 cash at fill price 100, a buy
signal for 1000 shares is clipped to the 500 affordable shares with an
insufficient-funds warning, both against a flat position and against an open
short of 1000; a cover of 1000 against a short of 300 is clipped to 300 with
an insufficient-position warning; and the section 8 scenario run keeps one
equity point per bar. -/
theorem clip_not_reject_witness :
    (applySignal bhCfg (mkBar 0 100 100) ⟨50000, 0, 0, [], [], []⟩ ⟨.buy, 1000⟩).trades
      = [⟨0, .buy, fillPrice bhCfg (mkBar 0 100 100) true,
          maxAffordable bhCfg 50000 (fillPrice bhCfg (mkBar 0 100 100) true),
          commissionFor bhCfg (fillPrice bhCfg (mkBar 0 100 100) true)
            (maxAffordable bhCfg 50000 (fillPrice bhCfg (mkBar 0 100 100) true)),
          none, some .insufficientFunds⟩]
    ∧ maxAffordable bhCfg 50000 (fillPrice bhCfg (mkBar 0 100 100) true) = 500
    ∧ (applySignal bhCfg (mkBar 0 100 100) ⟨50000, -1000, 100, [], [], []⟩
          ⟨.buy, 1000⟩).trades
      = [⟨0, .buy, fillPrice bhCfg (mkBar 0 100 100) true,
          maxAffordable bhCfg 50000 (fillPrice bhCfg (mkBar 0 100 100) true),
          commissionFor bhCfg (fillPrice bhCfg (mkBar 0 100 100) true)
            (maxAffordable bhCfg 50000 (fillPrice bhCfg (mkBar 0 100 100) true)),
          some ((100 - fillPrice bhCfg (mkBar 0 100 100) true) *
            maxAffordable bhCfg 50000 (fillPrice bhCfg (mkBar 0 100 100) true)),
          some .insufficientFunds⟩]
    ∧ (applySignal bhCfg (mkBar 0 100 100) ⟨1000, -300, 50, [], [], []⟩
          ⟨.cover, 1000⟩).trades
      = [⟨0, .cover, fillPrice bhCfg (mkBar 0 100 100) true, max (-(-300 : ℚ)) 0,
          commissionFor bhCfg (fillPrice bhCfg (mkBar 0 100 100) true)
            (max (-(-300 : ℚ)) 0),
          some ((50 - fillPrice bhCfg (mkBar 0 100 100) true) * max (-(-300 : ℚ)) 0),
          some .insufficientPosition⟩]
    ∧ (runBacktest scenStrat scenCfg scenBars).equity_curve.length = scenBars.length := by
  refine ⟨?_, ?_, ?_, ?_, ?_⟩
  · exact (clip_not_reject.1 bhCfg (mkBar 0 100 100) ⟨50000, 0, 0, [], [], []⟩ 1000
      (le_refl 0) (by norm_num) (by norm_num [fillPrice, commissionFor, bhCfg, mkBar])
      (by norm_num [fillPrice, bhCfg, mkBar]) (by norm_num [bhCfg])
      (by norm_num [bhCfg])).1
  · norm_num [maxAffordable, fillPrice, bhCfg, mkBar]
  · exact clip_not_reject.2.1 bhCfg (mkBar 0 100 100) ⟨50000, -1000, 100, [], [], []⟩
      1000 (by norm_num) (by norm_num)
      (by norm_num [fillPrice, commissionFor, bhCfg, mkBar])
      (by norm_num [maxAffordable, fillPrice, bhCfg, mkBar])
  · exact clip_not_reject.2.2.1 bhCfg (mkBar 0 100 100) ⟨1000, -300, 50, [], [], []⟩
      1000 (by norm_num) (by norm_num)
  · exact clip_not_reject.2.2.2.2 scenStrat scenCfg scenBars

end Backtest
